import Mathlib

/-!
# Verification of the servess routing core

This file gives a shallow embedding, in Lean 4, of the dispatch core of the
servess HTTP routing library (router dispatch, route listeners, path-pattern
compilation, content negotiation, response mutators and the extension
decoration protocol), together with theorems checking the natural-language
specification against the embedded code.

Conventions of the embedding:
* asynchronous code is collapsed to sequential pure code (every `await` point
  is a plain function call);
* JavaScript arrays are Lean lists, and the exact semantics of
  `Array.prototype.splice` / `Array.prototype.indexOf` used by the source are
  reproduced (`jsSpliceFrom`, `jsIndexOf`);
* the regular expression built by `getPathRegExp` is embedded as a small
  regex fragment (`RItem`) with a greedy backtracking matcher, covering
  exactly the constructs the route compiler emits; route paths whose literal
  text contains regex metacharacters other than `.` fall outside the modelled
  fragment and compilation reports `unmodeled` for them;
* `RegExp` constructor failures (invalid or duplicate capture-group names)
  are modelled as the `jsError` outcome of compilation.
-/

namespace Servess

/-- The three-variant dispatch result, from `RouterHandleResponse` in the
source: `RESULT` carries a payload, `HANDLED` and `UNHANDLED` carry none. -/
inductive RouterHandleResponse (α : Type) where
  | result (payload : α)
  | handled
  | unhandled
  deriving DecidableEq, Repr

/-- JavaScript `Array.prototype.indexOf`: index of the first occurrence,
`-1` when absent. -/
def jsIndexOf : List Nat → Nat → Int
  | [], _ => -1
  | a :: rest, x =>
    if a = x then 0
    else
      let r := jsIndexOf rest x
      if r = -1 then -1 else r + 1

/-- JavaScript `Array.prototype.splice(start)` with the delete-count
argument omitted: every element from the (clamped) start index to the end of
the array is removed, and the remaining prefix is kept.  A negative start
counts from the end of the array. -/
def jsSpliceFrom (l : List α) (start : Int) : List α :=
  if start < 0 then l.take ((l.length : Int) + start).toNat
  else l.take start.toNat

/-- The detach function a listener receives from `RouterContext.create.any`:
`() => handlers.splice(handlers.indexOf(listener))`.  `handlers` is the
router's target list and the listener is identified by `id`. -/
def detachListener (handlers : List Nat) (id : Nat) : List Nat :=
  jsSpliceFrom handlers (jsIndexOf handlers id)

/-- The detach function `createRouter` gives a sub-router:
`if (index !== -1) handlers.splice(index, 1)` — removes exactly one entry. -/
def detachRouter (handlers : List Nat) (id : Nat) : List Nat :=
  let index := jsIndexOf handlers id
  if index = -1 then handlers
  else handlers.take index.toNat ++ handlers.drop (index.toNat + 1)

/-- A router's mutable state during a dispatch: its current target list
paired with auxiliary observable state `σ` (used by the theorems to record,
e.g., which listeners ran). -/
abbrev RouterSt (σ : Type) := List Nat × σ

/-- A dispatch target (listener or nested router handle) as seen by the
dispatch loop: for a fixed message context it maps the current router state
to an awaited `RouterHandleResponse` and a possibly mutated state. -/
abbrev TargetFun (σ α : Type) := RouterSt σ → RouterHandleResponse α × RouterSt σ

/-- The loop body of `RouterContext.create.handle`: iterate the snapshot
list, await each target, return the first result that is not `UNHANDLED`,
and `UNHANDLED` when the snapshot is exhausted. -/
def dispatchSnap (store : Nat → TargetFun σ α) : List Nat → RouterSt σ →
    RouterHandleResponse α × RouterSt σ
  | [], st => (.unhandled, st)
  | id :: rest, st =>
    match store id st with
    | (.unhandled, st') => dispatchSnap store rest st'
    | (.handled, st') => (.handled, st')
    | (.result a, st') => (.result a, st')

/-- `RouterContext.create.handle`: `for (const handler of handlers.slice())`
— the iterated list is a snapshot of the target list taken when the dispatch
starts, while each target runs against (and may mutate) the live state. -/
def RouterContext.handleM (store : Nat → TargetFun σ α) (st : RouterSt σ) :
    RouterHandleResponse α × RouterSt σ :=
  dispatchSnap store st.1 st

/-- The concrete three-listener scenario: every listener appends its own id
to the log in the auxiliary state and reports `UNHANDLED`; listener 2
additionally detaches itself from the live target list while it runs. -/
def snapshotScenarioStore : Nat → TargetFun (List Nat) Unit := fun i st =>
  (.unhandled, (if i = 2 then detachListener st.1 2 else st.1, st.2 ++ [i]))

section DispatchLemmas

variable {σ α : Type}

theorem dispatchSnap_all_unhandled (store : Nat → TargetFun σ α)
    (snap : List Nat) (st : RouterSt σ)
    (h : ∀ id st', (store id st').1 = .unhandled) :
    (dispatchSnap store snap st).1 = .unhandled := by
  induction snap generalizing st with
  | nil => rfl
  | cons id rest ih =>
    have hid := h id st
    unfold dispatchSnap
    rcases hst : store id st with ⟨r, st'⟩
    rw [hst] at hid
    cases r with
    | unhandled => exact ih st'
    | handled => simp at hid
    | result a => simp at hid

theorem dispatchSnap_first_match (store : Nat → TargetFun σ α)
    (pre : List Nat) (k : Nat) (post : List Nat) (r : RouterHandleResponse α)
    (st : RouterSt σ)
    (hpre : ∀ id ∈ pre, ∀ st', (store id st').1 = .unhandled)
    (hk : ∀ st', (store k st').1 = r) (hr : r ≠ .unhandled) :
    (dispatchSnap store (pre ++ k :: post) st).1 = r := by
  induction pre generalizing st with
  | nil =>
    have hkst := hk st
    simp only [List.nil_append]
    unfold dispatchSnap
    rcases hst : store k st with ⟨r', st'⟩
    rw [hst] at hkst
    cases r' with
    | unhandled => exact absurd hkst.symm hr
    | handled => exact hkst
    | result a => exact hkst
  | cons id rest ih =>
    have hid := hpre id (List.mem_cons_self id rest) st
    simp only [List.cons_append]
    unfold dispatchSnap
    rcases hst : store id st with ⟨r', st'⟩
    rw [hst] at hid
    cases r' with
    | unhandled => exact ih st' (fun j hj st' => hpre j (List.mem_cons_of_mem id hj) st')
    | handled => simp at hid
    | result a => simp at hid

end DispatchLemmas

/-- C1. `handle` iterates a snapshot of the target list taken at the start
of the dispatch, in registration order, returning the first non-`UNHANDLED`
result and `UNHANDLED` when every target is exhausted; in the concrete
three-listener scenario where listener 2 detaches itself mid-dispatch,
listener 3 still runs (the log records all three ids) even though the live
target list has been truncated to `[1]` by the buggy one-argument `splice`. -/
theorem c1_handle_snapshot_dispatch :
    (∀ (σ α : Type) (store : Nat → TargetFun σ α) (st : RouterSt σ),
      (∀ id st', (store id st').1 = .unhandled) →
      (RouterContext.handleM store st).1 = .unhandled)
    ∧ (∀ (σ α : Type) (store : Nat → TargetFun σ α) (st : RouterSt σ)
        (pre : List Nat) (k : Nat) (post : List Nat)
        (r : RouterHandleResponse α),
      st.1 = pre ++ k :: post →
      (∀ id ∈ pre, ∀ st', (store id st').1 = .unhandled) →
      (∀ st', (store k st').1 = r) → r ≠ .unhandled →
      (RouterContext.handleM store st).1 = r)
    ∧ RouterContext.handleM snapshotScenarioStore ([1, 2, 3], []) =
        (.unhandled, ([1], [1, 2, 3])) := by
  refine ⟨?_, ?_, ?_⟩
  · intro σ α store st h
    exact dispatchSnap_all_unhandled store st.1 st h
  · intro σ α store st pre k post r hsnap hpre hk hr
    unfold RouterContext.handleM
    rw [hsnap]
    exact dispatchSnap_first_match store pre k post r st hpre hk hr
  · rfl

/-- Closed instantiation of `c1_handle_snapshot_dispatch`: a two-target
router whose targets all answer `UNHANDLED` dispatches to `UNHANDLED`, and a
router whose first target answers with a payload returns that payload. -/
theorem c1_handle_snapshot_dispatch_witness :
    (RouterContext.handleM (σ := Unit) (α := Unit)
        (fun _ st => (.unhandled, st)) ([5, 7], ())).1 = .unhandled
    ∧ (RouterContext.handleM (σ := Unit) (α := Nat)
        (fun _ st => (.result 9, st)) ([4, 6], ())).1 = .result 9 :=
  ⟨c1_handle_snapshot_dispatch.1 Unit Unit (fun _ st => (.unhandled, st))
      ([5, 7], ()) (fun _ _ => rfl),
   c1_handle_snapshot_dispatch.2.1 Unit Nat (fun _ st => (.result 9, st))
      ([4, 6], ()) [] 4 [6] (.result 9) rfl (by simp) (fun _ => rfl)
      (by simp)⟩

/-- C2. Evaluation of the listener detach function at concrete router
states.  The spec claims `detach()` removes exactly the detached listener
and is idempotent; the code calls `handlers.splice(handlers.indexOf(l))`
with the delete count omitted, so (i) detaching the first of three
listeners empties the whole list, and (ii) detaching an already-removed
listener hits `splice(-1)` and deletes the unrelated last listener.  The
correct one-element removal the spec describes is what `createRouter`'s
detach (`splice(index, 1)` guarded by `index !== -1`) implements. -/
theorem c2_detach_splice_truncates :
    detachListener [1, 2, 3] 1 = []
    ∧ detachListener [2, 1] 1 = [2]
    ∧ detachListener (detachListener [2, 1] 1) 1 = []
    ∧ detachRouter [1, 2, 3] 1 = [2, 3]
    ∧ detachRouter (detachRouter [2, 1] 1) 1 = [2] := by
  decide

/-! ## Kernel-computable string and number helpers

Lean core's `String.splitOn`, `String.trim`, `String.toUpper`, … do not
reduce inside the kernel, so the embedding re-implements the JavaScript
string operations it needs over `String.data` character lists (all
separators used by the source are single characters).  Quality values of
accept-header entries are unnormalized fractions of naturals (`QVal`), the
exact rational a plain decimal numeral denotes. -/

/-- Split a character list at every occurrence of a separator character
(JavaScript `String.prototype.split` with a one-character separator). -/
def splitOnChar (sep : Char) (l : List Char) : List (List Char) :=
  l.foldr
    (fun c acc =>
      match acc with
      | [] => [[]]
      | a :: as => if c = sep then [] :: a :: as else (c :: a) :: as)
    [[]]

/-- `s.split(sep)` for a one-character separator. -/
def jsSplitOn (s : String) (sep : Char) : List String :=
  (splitOnChar sep s.data).map String.mk

/-- `s.trim()`. -/
def jsTrim (s : String) : String :=
  String.mk (((s.data.dropWhile Char.isWhitespace).reverse.dropWhile
    Char.isWhitespace).reverse)

/-- `s.startsWith(p)`. -/
def strStartsWith (s p : String) : Bool :=
  p.data.isPrefixOf s.data

/-- `s.endsWith(p)`. -/
def strEndsWith (s p : String) : Bool :=
  p.data.isSuffixOf s.data

/-- `s.slice(n)` / `String.drop`. -/
def strDrop (s : String) (n : Nat) : String :=
  String.mk (s.data.drop n)

/-- `s.length` (code points; the modelled fragment is ASCII). -/
def strLength (s : String) : Nat :=
  s.data.length

/-- `s.toUpperCase()` (ASCII). -/
def jsToUpper (s : String) : String :=
  String.mk (s.data.map Char.toUpper)

/-- `s.toLowerCase()` (ASCII). -/
def jsToLower (s : String) : String :=
  String.mk (s.data.map Char.toLower)

/-- An unnormalized non-negative fraction `num / den`: the exact value of a
parsed decimal quality parameter. -/
structure QVal where
  num : Nat
  den : Nat
  deriving DecidableEq, Repr

/-- Fraction comparison by cross multiplication. -/
def qLe (a b : QVal) : Bool :=
  a.num * b.den ≤ b.num * a.den

/-! ## Path-pattern compiler (`getPathRegExp`) and regex-fragment matcher -/

/-- Line terminators: the characters a JavaScript regex `.` does not match
(and `.*` cannot cross). -/
def lineTerm (c : Char) : Bool :=
  c == '\n' || c == '\r' || c == Char.ofNat 0x2028 || c == Char.ofNat 0x2029

/-- One item of the regex source text `getPathRegExp` builds:
a literal character, a literal `.` (any non-line-terminator), the named
capture `(?<name>[^/]+)` emitted for a `:name` segment, the optional
trailing slash `/?`, or the wildcard tail `.*`. -/
inductive RItem where
  | lit (c : Char)
  | dot
  | group (name : String)
  | optSlash
  | dotStar
  deriving DecidableEq, Repr

/-- Greedy search: try `f n`, then `f (n-1)`, …, down to `f 0`, returning
the first defined value (mirrors regex backtracking from the longest
candidate). -/
def firstSome (f : Nat → Option β) : Nat → Option β
  | 0 => f 0
  | n + 1 =>
    match f (n + 1) with
    | some b => some b
    | none => firstSome f n

/-- The matcher for the regex fragment: anchored at the start; when `anch`
is true the whole input must be consumed (a `$` anchor), otherwise matching
a prefix suffices.  `group` and `dotStar` are greedy with backtracking,
exactly like the JavaScript constructs `[^/]+` and `.*` they embed.
Returns the list of named captures on success. -/
def riMatch : List RItem → Bool → List Char → Option (List (String × String))
  | [], anch, ds => if anch && !ds.isEmpty then none else some []
  | .lit c :: rest, anch, ds =>
    match ds with
    | [] => none
    | d :: ds' => if d = c then riMatch rest anch ds' else none
  | .dot :: rest, anch, ds =>
    match ds with
    | [] => none
    | d :: ds' => if lineTerm d then none else riMatch rest anch ds'
  | .optSlash :: rest, anch, ds =>
    match ds with
    | [] => riMatch rest anch []
    | d :: ds' =>
      if d = '/' then
        match riMatch rest anch ds' with
        | some g => some g
        | none => riMatch rest anch (d :: ds')
      else riMatch rest anch (d :: ds')
  | .group name :: rest, anch, ds =>
    firstSome
      (fun k =>
        if k = 0 then none
        else (riMatch rest anch (ds.drop k)).map
          (fun g => (name, String.mk (ds.take k)) :: g))
      (ds.takeWhile (fun c => c != '/')).length
  | .dotStar :: rest, anch, ds =>
    firstSome (fun k => riMatch rest anch (ds.drop k))
      (ds.takeWhile (fun c => !lineTerm c)).length

/-- A compiled route pattern: the regex items, whether a `$` end anchor is
present (absent exactly for a wildcard tail), and the named-capture names
in order of appearance. -/
structure PathPattern where
  items : List RItem
  anchored : Bool
  names : List String
  deriving DecidableEq, Repr

/-- `pathAsRegExp.exec(path)`: the capture mapping on a match. -/
def patExec (p : PathPattern) (s : String) : Option (List (String × String)) :=
  riMatch p.items p.anchored s.data

/-- `pathAsRegExp.test(path)`. -/
def patTest (p : PathPattern) (s : String) : Bool :=
  (patExec p s).isSome

/-- The `groups` field of `pathAsRegExp.exec(path)` as assigned to
`ctx.params`: `none` when the regex has no match; `some none` when it
matches but has no named capture groups at all (JavaScript leaves `groups`
`undefined`); `some (some m)` with the capture mapping otherwise. -/
def paramsGroups (p : PathPattern) (s : String) :
    Option (Option (List (String × String))) :=
  (patExec p s).map (fun c => if p.names.isEmpty then none else some c)

/-- Classification of a candidate capture-group name: `valid` names the
`RegExp` constructor accepts, `invalid` names it rejects with a
`SyntaxError` (empty names, names with ASCII characters outside the
identifier set, names starting with a digit), `unknown` for names with
non-ASCII characters that the fragment does not classify. -/
inductive GroupNameClass where
  | valid
  | invalid
  | unknown
  deriving DecidableEq, Repr

/-- ASCII identifier characters allowed in capture-group names. -/
def asciiIdChar (c : Char) : Bool :=
  c.isAlphanum || c == '_' || c == '$'

/-- Classify a capture-group name (see `GroupNameClass`). -/
def groupNameClass (n : String) : GroupNameClass :=
  match n.data with
  | [] => .invalid
  | d :: rest =>
    if d.isDigit then .invalid
    else if (d :: rest).all asciiIdChar then .valid
    else if (d :: rest).any (fun c => decide (c.toNat < 128) && !asciiIdChar c) then .invalid
    else .unknown

/-- Regex metacharacters (other than `.`) that the fragment does not model
when they occur in a literal segment of a route path. -/
def regexMeta (c : Char) : Bool :=
  ['\\', '^', '$', '*', '+', '?', '(', ')',
    '[', ']', Char.ofNat 123, Char.ofNat 125, '|'].contains c

/-- Compile one `/`-separated part of the full route path, mirroring
`part => part.startsWith(':') ? `(?<name>[^/]+)` : part`: a `:name` part
becomes a named capture; any other part is spliced verbatim into the regex
source, so each of its characters is regex syntax (`.` is the any-character
metacharacter).  `none` when a character outside the fragment occurs. -/
def segItem (p : String) : Option (List RItem) :=
  if strStartsWith p ":" then some [RItem.group (strDrop p 1)]
  else p.data.mapM (fun c =>
    if c = '.' then some RItem.dot
    else if regexMeta c then none
    else some (RItem.lit c))

/-- Compile the parts and re-join them with literal `/` characters. -/
def segsItems (parts : List String) : Option (List RItem) :=
  (parts.mapM segItem).map (List.intercalate [RItem.lit '/'])

/-- Outcome of compiling a route path: a pattern, a synchronous `RegExp`
constructor error, or a path outside the modelled regex fragment. -/
inductive CompileOut where
  | ok (p : PathPattern)
  | jsError
  | unmodeled
  deriving DecidableEq, Repr

/-- `prefixPath + (path.startsWith('/') ? path.slice(1) : path)`. -/
def fullPathOf (pp path : String) : String :=
  pp ++ (if strStartsWith path "/" then strDrop path 1 else path)

/-- The `/`-separated parts of the full route path. -/
def routeParts (pp path : String) : List String :=
  jsSplitOn (fullPathOf pp path) '/'

/-- The capture-group names the parts declare (`:name` parts, in order). -/
def routeNames (parts : List String) : List String :=
  parts.filterMap
    (fun p => if strStartsWith p ":" then some (strDrop p 1) else none)

/-- Assemble the compiled pattern from the parts: re-join with `/`, rewrite
a trailing `/` into `/?`, then either rewrite a trailing `/*` into an
unanchored `/.*` or append the `$` anchor. -/
def buildPattern (parts names : List String) : CompileOut :=
  let hasTrail := parts.getLast? == some ""
  let core := if hasTrail then parts.dropLast else parts
  let isWild := !hasTrail && decide (2 ≤ core.length) && (core.getLast? == some "*")
  let body := if isWild then core.dropLast else core
  match segsItems body with
  | none => .unmodeled
  | some its =>
    .ok ⟨its ++ (if isWild then [RItem.lit '/', RItem.dotStar]
          else if hasTrail then [RItem.optSlash] else []),
        !isWild, names⟩

/-- The body of `getPathRegExp`: split the full path on `/`, turn `:name`
parts into named captures and build the pattern.  Invalid or duplicate
capture-group names make the `RegExp` constructor throw synchronously
(`jsError`), before any pattern is produced. -/
def getPathRegExp (pp path : String) : CompileOut :=
  let parts := routeParts pp path
  let names := routeNames parts
  if names.any (fun n => groupNameClass n == .invalid) then .jsError
  else if names.any (fun n => groupNameClass n == .unknown) then .unmodeled
  else if ¬ names.Nodup then .jsError
  else buildPattern parts names

/-- The `prefixPath` normalization at the top of `RouterContext.create`. -/
def prefixPathOf (p : String) : String :=
  if strLength p = 1 then
    if p = "/" then "/" else "/" ++ p ++ "/"
  else if strStartsWith p "/" then
    if strEndsWith p "/" then p else p ++ "/"
  else if strEndsWith p "/" then "/" ++ p else "/" ++ p ++ "/"

/-- Pattern compilation as a route registration performs it: the router's
raw prefix is normalized and the route path compiled against it. -/
def routerCompile (pre path : String) : CompileOut :=
  getPathRegExp (prefixPathOf pre) path

/-- `pathAsRegExp.test` for a freshly compiled route (false when the route
fails to compile). -/
def compiledTest (pre path s : String) : Bool :=
  match routerCompile pre path with
  | .ok p => patTest p s
  | _ => false

/-- `pathAsRegExp.exec(...).groups`-style capture list for a freshly
compiled route. -/
def compiledExec (pre path s : String) : Option (List (String × String)) :=
  match routerCompile pre path with
  | .ok p => patExec p s
  | _ => none

/-- Registration via `RouterContext.create.any` as far as the handler list
is concerned: compiling the pattern happens first and a compile error
propagates synchronously, before the listener is appended; on success the
listener (identified by `id`) is pushed.  `none` when the path is outside
the modelled fragment. -/
def anyModel (handlers : List Nat) (id : Nat) (pre path : String) :
    Option (Except Unit (List Nat)) :=
  match routerCompile pre path with
  | .ok _ => some (.ok (handlers ++ [id]))
  | .jsError => some (.error ())
  | .unmodeled => none

/-! ## Route listeners (`RouteListener.create`, `any`, `add`) -/

/-- The message-context fields the matching pipeline reads and writes. -/
structure MsgCtx where
  method : String
  path : String
  params : Option (List (String × String))
  deriving DecidableEq, Repr

/-- A route listener: its compiled pattern, its ordered precondition list
and its current handler.  A handler returning `none` models a JavaScript
handler returning `undefined`; `some payload` models a returned body. -/
structure ListenerM where
  pattern : PathPattern
  preConds : List (MsgCtx → Bool)
  handler : MsgCtx → Option String

/-- `wrappedRouteHandler` from `RouteListener.create`: reject when the
pattern rejects the path; reject when any precondition (in order) fails;
otherwise overwrite `ctx.params` with the match's `groups` value, run the
handler, and map `undefined` to `HANDLED` and a value to `RESULT`. -/
def runListener (L : ListenerM) (ctx : MsgCtx) :
    RouterHandleResponse String × MsgCtx :=
  if patTest L.pattern ctx.path = false then (.unhandled, ctx)
  else if L.preConds.all (fun pre => pre ctx) = false then (.unhandled, ctx)
  else
    match L.handler { ctx with params := (paramsGroups L.pattern ctx.path).join } with
    | none => (.handled, { ctx with params := (paramsGroups L.pattern ctx.path).join })
    | some payload =>
      (.result payload, { ctx with params := (paramsGroups L.pattern ctx.path).join })

/-- The listener `RouterContext.create.any` registers: no preconditions. -/
def anyListener (pat : PathPattern) (h : MsgCtx → Option String) : ListenerM :=
  ⟨pat, [], h⟩

/-- The method precondition `RouterContext.create.add` appends:
`ctx => ctx.method === METHOD` with `METHOD = method.toUpperCase()`.  Only
the registered method string is uppercased; the request method is compared
as-is. -/
def methodPre (method : String) : MsgCtx → Bool :=
  fun ctx => ctx.method == jsToUpper method

/-- `RouterContext.create.add`: the listener `any` would create, plus the
appended method precondition. -/
def addListener (method : String) (pat : PathPattern) (h : MsgCtx → Option String) :
    ListenerM :=
  let L := anyListener pat h
  { L with preConds := L.preConds ++ [methodPre method] }

/-- The pattern a registration compiles, defaulting to an empty anchored
pattern when compilation does not succeed (used only to write closed
statements; the compile success is always checked separately). -/
def compiledOr (pre path : String) : PathPattern :=
  match routerCompile pre path with
  | .ok p => p
  | _ => ⟨[], true, []⟩

/-! ## Content negotiation (`accepts` / `accepting`) -/

/-- One parsed entry of the `accept` request header. -/
structure AcceptEntry where
  mimeType : String
  q : QVal
  deriving DecidableEq, Repr

/-- Numeric value of a digit string. -/
def digitsToNat (l : List Char) : Nat :=
  l.foldl (fun n c => 10 * n + (c.toNat - 48)) 0

/-- JavaScript numeric conversion `+value` restricted to plain decimal
numerals `digits` or `digits.digits`; other shapes are outside the modelled
fragment. -/
def parseDecimal? (s : String) : Option QVal :=
  match s.data.span Char.isDigit with
  | (intPart, []) =>
    if intPart.isEmpty then none else some ⟨digitsToNat intPart, 1⟩
  | (intPart, '.' :: frac) =>
    if intPart.isEmpty || frac.isEmpty || !frac.all Char.isDigit then none
    else some ⟨digitsToNat intPart * 10 ^ frac.length + digitsToNat frac,
      10 ^ frac.length⟩
  | _ => none

/-- Fold one `name=value` parameter of an accept-header entry over the
quality accumulated so far (a parameter with an empty name is skipped; a
parameter literally named `mimeType`, or a `q` whose value is not a plain
decimal numeral, leaves the modelled fragment; see `parseAcceptEntry?`). -/
def acceptParamStep (q : QVal) (piece : String) : Option QVal :=
  let kv := jsSplitOn piece '='
  let pname := kv.headD ""
  if pname = "" then some q
  else if pname = "mimeType" then none
  else if pname = "q" then
    match kv[1]? with
    | none => none
    | some v => parseDecimal? v
  else some q

/-- Parse one comma-separated piece of the accept header, mirroring the
`calc` closure of `MessageContext.create`: split on `;`, trim each part,
the first part is the mime type, the remaining `name=value` parameters are
folded over the default `q = 1`. -/
def parseAcceptEntry? (s : String) : Option AcceptEntry :=
  let parts := (jsSplitOn s ';').map jsTrim
  (parts.tail.foldlM acceptParamStep ⟨1, 1⟩).map
    (fun q => AcceptEntry.mk (parts.headD "") q)

/-- Parse the whole accept header: split on `,` and parse each piece. -/
def parseAccept? (h : String) : Option (List AcceptEntry) :=
  (jsSplitOn h ',').mapM parseAcceptEntry?

/-- Stable insertion into a quality-descending list: the new entry goes
after every entry of greater or equal quality (entries earlier in the
header are inserted earlier, so ties keep header order). -/
def insEntry (e : AcceptEntry) : List AcceptEntry → List AcceptEntry
  | [] => [e]
  | x :: xs => if qLe e.q x.q then x :: insEntry e xs else e :: x :: xs

/-- `.sort((a, b) => b.q - a.q)`: the stable descending sort by quality. -/
def sortByQDesc (l : List AcceptEntry) : List AcceptEntry :=
  l.foldl (fun acc e => insEntry e acc) []

/-- The fixed `mimeTypeShorthands` table. -/
def mimeTypeShorthands : List (String × String) :=
  [("json", "application/json"), ("html", "text/html"), ("css", "text/css"),
   ("js", "text/javascript"), ("javascript", "text/javascript"),
   ("svg", "image/svg+xml"), ("png", "image/png"), ("jpeg", "image/jpeg"),
   ("jpg", "image/jpeg")]

/-- Expand a candidate through the shorthand table (unknown names pass
through unchanged). -/
def expandShorthand (t : String) : String :=
  match mimeTypeShorthands.lookup t with
  | some full => full
  | none => t

/-- `mimeType.split('/')` destructured as `[first, second]`: the second
component is `undefined` (`none`) when there is no `/`. -/
def splitMime (s : String) : String × Option String :=
  let ps := jsSplitOn s '/'
  (ps.headD "", ps[1]?)

/-- The inner candidate scan of `accepts`: first candidate whose major type
equals the accept entry's, and whose subtype equals the entry's or where
the entry's subtype is `*`. -/
def findCand (aF : String) (aS : Option String) :
    List ((String × Option String) × String) → Option String
  | [] => none
  | ((tF, tS), v) :: rest =>
    if aF ≠ tF then findCand aF aS rest
    else if aS = some "*" then some v
    else if aS = tS then some v
    else findCand aF aS rest

/-- The outer walk of `accepts` over the sorted accept entries: `*/*`
returns the first candidate immediately, otherwise scan the candidates. -/
def walkAccept (first : String) (resolved : List ((String × Option String) × String)) :
    List AcceptEntry → Option String
  | [] => none
  | e :: es =>
    if e.mimeType = "*/*" then some first
    else
      let fs := splitMime e.mimeType
      match findCand fs.1 fs.2 resolved with
      | some v => some v
      | none => walkAccept first resolved es

/-- `accepts(...types)` given the parsed accept entries: `none` models the
JavaScript return value `false`. -/
def acceptsCore (entries : List AcceptEntry) (types : List String) : Option String :=
  match types with
  | [] => none
  | t0 :: _ =>
    walkAccept t0 (types.map (fun t => (splitMime (expandShorthand t), t)))
      (sortByQDesc entries)

/-- End-to-end `accepts` from the raw header (outer `none` when the header
is outside the modelled fragment). -/
def acceptsM (header : String) (types : List String) : Option (Option String) :=
  (parseAccept? header).map (fun entries => acceptsCore entries types)

/-- `keys.splice(keys.indexOf('else'), 1)` when `'else'` is present:
remove the first occurrence. -/
def removeFirst : List String → String → List String
  | [], _ => []
  | x :: xs, y => if x = y then xs else x :: removeFirst xs y

/-- `accepting(handlersByType)` reduced to which handler key is invoked:
throw (`Except.error`) when no `else` key exists — before the accept header
is consulted; otherwise run `accepts` over the non-`else` keys in object
key order and answer with the matched key, falling back to `else`. -/
def acceptingM (entries : List AcceptEntry) (keys : List String) :
    Except Unit String :=
  if !keys.contains "else" then .error ()
  else
    let ks := removeFirst keys "else"
    if ks.isEmpty then .ok "else"
    else
      match acceptsCore entries ks with
      | some r => .ok r
      | none => .ok "else"

/-! ## Response mutators (`status`, `setHeader`, `redirect*`) -/

/-- The response state the redirect helpers touch: the accumulated status
code (default 200) and the response headers, keyed by lowercased name. -/
structure RespState where
  status : Nat
  headers : List (String × List String)
  deriving DecidableEq, Repr

/-- `Headers.set` storage update: replace the values of an existing key in
place, or append a new key. -/
def assocSet (hs : List (String × List String)) (k : String) (v : List String) :
    List (String × List String) :=
  match hs with
  | [] => [(k, v)]
  | (k', v') :: rest =>
    if k' = k then (k, v) :: rest else (k', v') :: assocSet rest k v

/-- `Headers.set(name, value)`: keys are lowercased on storage. -/
def headersSet (hs : List (String × List String)) (name : String)
    (vals : List String) : List (String × List String) :=
  assocSet hs (jsToLower name) vals

/-- `MessageContext.setHeader`: a `Content-Type` value that is a shorthand
name is expanded through the shorthand table; all other headers store the
value unchanged. -/
def setHeaderM (st : RespState) (name value : String) : RespState :=
  if jsToLower name = "content-type" ∧ (mimeTypeShorthands.lookup value).isSome then
    { st with headers :=
        headersSet st.headers name [(mimeTypeShorthands.lookup value).getD value] }
  else { st with headers := headersSet st.headers name [value] }

/-- `MessageContext.status(n)`. -/
def statusM (st : RespState) (n : Nat) : RespState :=
  { st with status := n }

/-- `redirect(location)`: status 303 for `PUT`/`POST` requests, else 307,
then set the `Location` header. -/
def redirectM (method loc : String) (st : RespState) : RespState :=
  setHeaderM (statusM st (if method = "PUT" ∨ method = "POST" then 303 else 307))
    "Location" loc

/-- `redirectPermanent(location)`: 303 for `PUT`/`POST`, else 308. -/
def redirectPermanentM (method loc : String) (st : RespState) : RespState :=
  setHeaderM (statusM st (if method = "PUT" ∨ method = "POST" then 303 else 308))
    "Location" loc

/-- `redirectPermanentCompat(location)`: 303 for `PUT`/`POST`, else 301. -/
def redirectPermanentCompatM (method loc : String) (st : RespState) : RespState :=
  setHeaderM (statusM st (if method = "PUT" ∨ method = "POST" then 303 else 301))
    "Location" loc

/-! ## Extension decoration (`internal-util.ts`) -/

/-- An installed extension as the decoration pass sees it: its name and its
optional decoration hook for the target kind under consideration.  The hook
receives the target's current fields and returns either a partial object
(`some fields`) or nothing (`none`, a void return, dropped by
`filter(Boolean)`).  Field values are abstracted to `Nat`. -/
structure ExtensionM where
  name : String
  decorate : Option (List (String × Nat) → Option (List (String × Nat)))

/-- `execFunctionOnArray` followed by `.filter(Boolean)`: keep the
extensions defining the hook, in installation order, call each on the
target, and drop void results. -/
def decorateHooks (exts : List ExtensionM) (t : List (String × Nat)) :
    List (List (String × Nat)) :=
  ((exts.filterMap (fun e => e.decorate)).map (fun f => f t)).filterMap id

/-- One field assignment of `Object.assign`: overwrite in place or append. -/
def setField (t : List (String × Nat)) (k : String) (v : Nat) :
    List (String × Nat) :=
  match t with
  | [] => [(k, v)]
  | (k', v') :: rest =>
    if k' = k then (k, v) :: rest else (k', v') :: setField rest k v

/-- `Object.assign(target, partial)`: assign the partial's fields onto the
target, left to right. -/
def objAssign (t p : List (String × Nat)) : List (String × Nat) :=
  p.foldl (fun acc kv => setField acc kv.1 kv.2) t

/-- `Object.assign(target, ...partials)` over the collected hook results:
the whole decoration pass of `decorateApplication` /
`decorateRouterContext` / `decorateMessageContext`. -/
def decorateM (exts : List ExtensionM) (t : List (String × Nat)) :
    List (String × Nat) :=
  (decorateHooks exts t).foldl objAssign t

/-- Field lookup on a decorated object. -/
def getField (t : List (String × Nat)) (k : String) : Option Nat :=
  match t with
  | [] => none
  | (k', v) :: rest => if k' = k then some v else getField rest k

/-- The value the last assignment of a partial gives a field. -/
def lookupLast (p : List (String × Nat)) (k : String) : Option Nat :=
  getField p.reverse k

/-- First defined of two optional values. -/
def firstOf (a b : Option Nat) : Option Nat :=
  match a with
  | some v => some v
  | none => b

/-- The value the latest partial defining a field gives it. -/
def lastDefined : List (List (String × Nat)) → String → Option Nat
  | [], _ => none
  | p :: ps, k => firstOf (lastDefined ps k) (lookupLast p k)

/-! ## Theorems for claims C5, C6, C9, C10 -/

/-- C5 counterexample.  The claim says the method comparison is
case-insensitive because both sides are uppercased; in the code only the
registered method is uppercased, so the request method `get` fails the
precondition of a `GET`-registered route even though the same request
passes the corresponding `any` listener. -/
theorem c5_method_case_counterexample :
    methodPre "GET" ⟨"get", "/", none⟩ = false
    ∧ (runListener (addListener "GET" (compiledOr "/" "") (fun _ => some "ok"))
        ⟨"get", "/", none⟩).1 = .unhandled
    ∧ (runListener (anyListener (compiledOr "/" "") (fun _ => some "ok"))
        ⟨"get", "/", none⟩).1 = .result "ok" := by
  refine ⟨by decide, by decide, by decide⟩

/-- C5 (amended).  `add(method, path, handler)` behaves exactly as
`any(path, handler)` with one appended precondition comparing the request
method, verbatim, against the uppercased registered method — so the
comparison is case-insensitive in the registered method only, and a
`GET`-registered route answers `UNHANDLED` to a `POST` request. -/
theorem c5_add_is_any_plus_method_precondition :
    (∀ (m : String) (pat : PathPattern) (h : MsgCtx → Option String) (ctx : MsgCtx),
      runListener (addListener m pat h) ctx =
        if ctx.method = jsToUpper m then runListener (anyListener pat h) ctx
        else (.unhandled, ctx))
    ∧ (∀ (m : String) (ctx : MsgCtx), methodPre m ctx = true ↔ ctx.method = jsToUpper m)
    ∧ (∀ (m₁ m₂ : String) (pat : PathPattern) (h : MsgCtx → Option String)
        (ctx : MsgCtx), jsToUpper m₁ = jsToUpper m₂ →
        runListener (addListener m₁ pat h) ctx = runListener (addListener m₂ pat h) ctx)
    ∧ (runListener (addListener "GET" (compiledOr "/" "") (fun _ => some "ok"))
        ⟨"POST", "/", none⟩).1 = .unhandled := by
  have h1 : ∀ (m : String) (pat : PathPattern) (h : MsgCtx → Option String)
      (ctx : MsgCtx),
      runListener (addListener m pat h) ctx =
        if ctx.method = jsToUpper m then runListener (anyListener pat h) ctx
        else (.unhandled, ctx) := by
    intro m pat h ctx
    unfold runListener addListener anyListener
    simp only [List.nil_append, List.all_cons, List.all_nil, Bool.and_true, methodPre]
    by_cases hm : ctx.method = jsToUpper m
    · rw [if_pos hm, beq_iff_eq.mpr hm]
    · rw [if_neg hm, beq_eq_false_iff_ne.mpr hm]
      by_cases hp : patTest pat ctx.path = false
      · rw [if_pos hp]
      · rw [if_neg hp, if_pos rfl]
  refine ⟨h1, ?_, ?_, by decide⟩
  · intro m ctx
    simp [methodPre]
  · intro m₁ m₂ pat h ctx he
    rw [h1 m₁, h1 m₂, he]

/-- Closed instantiation of `c5_add_is_any_plus_method_precondition`:
routes registered with `get` and with `GET` dispatch identically. -/
theorem c5_add_is_any_plus_method_precondition_witness :
    runListener (addListener "get" (compiledOr "/" "") (fun _ => some "ok"))
        ⟨"GET", "/", none⟩ =
      runListener (addListener "GET" (compiledOr "/" "") (fun _ => some "ok"))
        ⟨"GET", "/", none⟩ :=
  c5_add_is_any_plus_method_precondition.2.2.1 "get" "GET"
    (compiledOr "/" "") (fun _ => some "ok") ⟨"GET", "/", none⟩ (by decide)

/-- C6.  `accepting` throws synchronously when no `else` key exists — for
every possible parsed accept header, i.e. before the header is consulted;
with `else` present it answers with the key `accepts` selects over the
remaining keys in object order, falling back to `else` when `accepts`
returns false, including when `else` is the only key. -/
theorem c6_accepting_requires_else :
    (∀ (entries : List AcceptEntry) (keys : List String),
      keys.contains "else" = false → acceptingM entries keys = .error ())
    ∧ (∀ (entries : List AcceptEntry) (keys : List String) (r : String),
        keys.contains "else" = true →
        acceptsCore entries (removeFirst keys "else") = some r →
        acceptingM entries keys = .ok r)
    ∧ (∀ (entries : List AcceptEntry) (keys : List String),
        keys.contains "else" = true →
        acceptsCore entries (removeFirst keys "else") = none →
        acceptingM entries keys = .ok "else")
    ∧ (∀ entries : List AcceptEntry, acceptingM entries ["else"] = .ok "else") := by
  refine ⟨?_, ?_, ?_, fun entries => rfl⟩
  · intro entries keys hk
    unfold acceptingM
    rw [hk]
    rfl
  · intro entries keys r hk hacc
    unfold acceptingM
    rw [hk]
    simp only [Bool.not_true, Bool.false_eq_true, if_false]
    by_cases hke : (removeFirst keys "else").isEmpty
    · exfalso
      rw [List.isEmpty_iff.mp hke] at hacc
      simp [acceptsCore] at hacc
    · rw [if_neg hke, hacc]
  · intro entries keys hk hacc
    unfold acceptingM
    rw [hk]
    simp only [Bool.not_true, Bool.false_eq_true, if_false]
    by_cases hke : (removeFirst keys "else").isEmpty
    · rw [if_pos hke]
    · rw [if_neg hke, hacc]

/-- Closed instantiation of `c6_accepting_requires_else`: an object with
only an `html` handler raises the configuration error whatever the header
said, and `{html, else}` under a `text/html` header answers `html`. -/
theorem c6_accepting_requires_else_witness :
    acceptingM [⟨"application/json", ⟨1, 1⟩⟩] ["html"] = .error ()
    ∧ acceptingM [⟨"text/html", ⟨1, 1⟩⟩] ["html", "else"] = .ok "html" :=
  ⟨c6_accepting_requires_else.1 [⟨"application/json", ⟨1, 1⟩⟩] ["html"] (by decide),
   c6_accepting_requires_else.2.1 [⟨"text/html", ⟨1, 1⟩⟩] ["html", "else"] "html"
    (by decide) (by decide)⟩

/-- C9.  `redirect` sets status 307, `redirectPermanent` 308 and
`redirectPermanentCompat` 301 — each replaced by 303 when the request
method is `PUT` or `POST` — and each sets the `Location` response header to
the given location, leaving the rest of the response state unchanged. -/
theorem c9_redirect_statuses :
    ∀ (method loc : String) (st : RespState),
      redirectM method loc st =
        { status := if method = "PUT" ∨ method = "POST" then 303 else 307,
          headers := headersSet st.headers "Location" [loc] }
      ∧ redirectPermanentM method loc st =
        { status := if method = "PUT" ∨ method = "POST" then 303 else 308,
          headers := headersSet st.headers "Location" [loc] }
      ∧ redirectPermanentCompatM method loc st =
        { status := if method = "PUT" ∨ method = "POST" then 303 else 301,
          headers := headersSet st.headers "Location" [loc] } := by
  have hno : ∀ (st' : RespState) (loc : String),
      setHeaderM st' "Location" loc =
        { st' with headers := headersSet st'.headers "Location" [loc] } := by
    intro st' loc
    unfold setHeaderM
    rw [if_neg]
    intro hc
    exact absurd hc.1 (by decide)
  intro method loc st
  refine ⟨?_, ?_, ?_⟩ <;>
    simp only [redirectM, redirectPermanentM, redirectPermanentCompatM, statusM, hno]

/-- C10.  After a successful match the code assigns the regex match's
`groups` field to `ctx.params`: for a pattern with no named captures this
is `undefined` (`none`), not an empty mapping, and it overwrites whatever
`ctx.params` held before; only patterns with at least one named capture
leave a real mapping. -/
theorem c10_params_groups_undefined :
    (∀ (p : PathPattern) (s : String), p.names.isEmpty = true →
      patTest p s = true → paramsGroups p s = some none)
    ∧ (∀ (p : PathPattern) (s : String) (c : List (String × String)),
        patExec p s = some c → p.names.isEmpty = false →
        paramsGroups p s = some (some c))
    ∧ (∀ (L : ListenerM) (ctx : MsgCtx) (res : RouterHandleResponse String)
        (ctx' : MsgCtx), runListener L ctx = (res, ctx') → res ≠ .unhandled →
        ctx'.params = (paramsGroups L.pattern ctx.path).join
        ∧ ctx'.method = ctx.method ∧ ctx'.path = ctx.path)
    ∧ (runListener ⟨compiledOr "/" "users", [], fun _ => none⟩
        ⟨"GET", "/users", some [("id", "1")]⟩).2.params = none
    ∧ (runListener ⟨compiledOr "/" "users/:id", [], fun _ => none⟩
        ⟨"GET", "/users/42", none⟩).2.params = some [("id", "42")] := by
  refine ⟨?_, ?_, ?_, by decide, by decide⟩
  · intro p s hn ht
    unfold patTest at ht
    unfold paramsGroups
    cases he : patExec p s with
    | none => rw [he] at ht; simp at ht
    | some c => simp [he, hn]
  · intro p s c he hn
    simp [paramsGroups, he, hn]
  · intro L ctx res ctx' hrun hres
    unfold runListener at hrun
    by_cases hp : patTest L.pattern ctx.path = false
    · rw [if_pos hp] at hrun
      obtain ⟨h1, h2⟩ := Prod.mk.injEq .. ▸ hrun
      exact absurd h1.symm hres
    · rw [if_neg hp] at hrun
      by_cases hpre : L.preConds.all (fun pre => pre ctx) = false
      · rw [if_pos hpre] at hrun
        obtain ⟨h1, h2⟩ := Prod.mk.injEq .. ▸ hrun
        exact absurd h1.symm hres
      · rw [if_neg hpre] at hrun
        cases hh : L.handler
            { ctx with params := (paramsGroups L.pattern ctx.path).join } with
        | none =>
          rw [hh] at hrun
          obtain ⟨h1, h2⟩ := Prod.mk.injEq .. ▸ hrun
          exact h2 ▸ ⟨rfl, rfl, rfl⟩
        | some payload =>
          rw [hh] at hrun
          obtain ⟨h1, h2⟩ := Prod.mk.injEq .. ▸ hrun
          exact h2 ▸ ⟨rfl, rfl, rfl⟩

/-- Closed instantiation of `c10_params_groups_undefined`: the compiled
`/users` pattern has no named capture, so a successful match leaves the
`groups` value `undefined`. -/
theorem c10_params_groups_undefined_witness :
    paramsGroups (compiledOr "/" "users") "/users" = some none :=
  c10_params_groups_undefined.1 (compiledOr "/" "users") "/users"
    (by decide) (by decide)

/-! ## Theorems for claim C8 (decoration) -/

theorem getField_setField (t : List (String × Nat)) (k' : String) (v : Nat)
    (k : String) :
    getField (setField t k' v) k = if k' = k then some v else getField t k := by
  induction t with
  | nil =>
    by_cases h : k' = k <;> simp [setField, getField, h]
  | cons kv rest ih =>
    obtain ⟨a, b⟩ := kv
    by_cases hak : a = k'
    · subst hak
      by_cases h2 : a = k <;> simp [setField, getField, h2]
    · by_cases h2 : a = k
      · subst h2
        have : ¬ k' = a := fun hc => hak hc.symm
        simp [setField, getField, hak, this]
      · simp [setField, getField, hak, h2, ih]

theorem getField_append (l₁ l₂ : List (String × Nat)) (k : String) :
    getField (l₁ ++ l₂) k = firstOf (getField l₁ k) (getField l₂ k) := by
  induction l₁ with
  | nil => simp [getField, firstOf]
  | cons kv rest ih =>
    obtain ⟨a, b⟩ := kv
    by_cases h : a = k <;> simp [getField, firstOf, h, ih]

theorem firstOf_assoc (a b c : Option Nat) :
    firstOf (firstOf a b) c = firstOf a (firstOf b c) := by
  cases a <;> simp [firstOf]

theorem getField_objAssign (p : List (String × Nat)) :
    ∀ (t : List (String × Nat)) (k : String),
      getField (objAssign t p) k = firstOf (lookupLast p k) (getField t k) := by
  induction p with
  | nil => intro t k; simp [objAssign, lookupLast, getField, firstOf]
  | cons kv p ih =>
    intro t k
    have hstep : objAssign t (kv :: p) = objAssign (setField t kv.1 kv.2) p := rfl
    rw [hstep, ih]
    have hlast : lookupLast (kv :: p) k =
        firstOf (lookupLast p k) (if kv.1 = k then some kv.2 else none) := by
      unfold lookupLast
      simp only [List.reverse_cons]
      rw [getField_append]
      by_cases h : kv.1 = k <;> simp [getField, h]
    rw [hlast, firstOf_assoc, getField_setField]
    by_cases h : kv.1 = k <;> cases hl : lookupLast p k <;> simp [firstOf, h]

theorem getField_foldl_assign (ps : List (List (String × Nat))) :
    ∀ (t : List (String × Nat)) (k : String),
      getField (ps.foldl objAssign t) k =
        firstOf (lastDefined ps k) (getField t k) := by
  induction ps with
  | nil => intro t k; simp [lastDefined, firstOf]
  | cons p ps ih =>
    intro t k
    simp only [List.foldl_cons, lastDefined]
    rw [ih, getField_objAssign, firstOf_assoc]

/-- C8.  Decoration collects the partial objects of the extensions that
define the matching hook, in installation order, skipping the others, and
merges them onto the target by shallow assignment in that order: a field is
present with the value given by the latest partial that defines it, falling
back to the target's own value; with two extensions decorating the same
field, the second-installed one wins. -/
theorem c8_decoration_last_writer_wins :
    (∀ (exts : List ExtensionM) (t : List (String × Nat)) (k : String),
      getField (decorateM exts t) k =
        firstOf (lastDefined (decorateHooks exts t) k) (getField t k))
    ∧ (∀ (pre post : List ExtensionM) (e : ExtensionM) (t : List (String × Nat)),
        e.decorate = none → decorateM (pre ++ e :: post) t = decorateM (pre ++ post) t)
    ∧ getField (decorateM
        [⟨"first", some fun _ => some [("shared", 1), ("only1", 10)]⟩,
         ⟨"second", some fun _ => some [("shared", 2)]⟩] []) "shared" = some 2
    ∧ getField (decorateM
        [⟨"first", some fun _ => some [("shared", 1), ("only1", 10)]⟩,
         ⟨"second", some fun _ => some [("shared", 2)]⟩] []) "only1" = some 10
    ∧ decorateM [⟨"void-hook", some fun _ => none⟩, ⟨"no-hook", none⟩]
        [("a", 5)] = [("a", 5)] := by
  refine ⟨?_, ?_, by decide, by decide, by decide⟩
  · intro exts t k
    exact getField_foldl_assign (decorateHooks exts t) t k
  · intro pre post e t he
    unfold decorateM decorateHooks
    simp [List.filterMap_append, List.filterMap_cons, he]

/-- Closed instantiation of `c8_decoration_last_writer_wins`: an extension
without the hook, installed between two others, leaves decoration
unchanged. -/
theorem c8_decoration_last_writer_wins_witness :
    decorateM [⟨"a", some fun _ => some [("x", 1)]⟩, ⟨"skip", none⟩,
        ⟨"b", some fun _ => some [("x", 2)]⟩] [] =
      decorateM [⟨"a", some fun _ => some [("x", 1)]⟩,
        ⟨"b", some fun _ => some [("x", 2)]⟩] [] :=
  c8_decoration_last_writer_wins.2.1 [⟨"a", some fun _ => some [("x", 1)]⟩]
    [⟨"b", some fun _ => some [("x", 2)]⟩] ⟨"skip", none⟩ [] rfl

/-! ## Theorems for claim C3 (content negotiation) -/

theorem qLe_of_not_qLe {a b : QVal} (h : qLe a b = false) : qLe b a = true := by
  unfold qLe at *
  simp only [decide_eq_false_iff_not] at h
  simpa using Nat.le_of_not_le h

theorem qLe_trans {a b c : QVal} (hb : 0 < b.den) (h1 : qLe a b = true)
    (h2 : qLe b c = true) : qLe a c = true := by
  unfold qLe at *
  simp only [decide_eq_true_eq] at h1 h2 ⊢
  have step1 : a.num * c.den * b.den ≤ b.num * a.den * c.den := by
    calc a.num * c.den * b.den = a.num * b.den * c.den := by ring
      _ ≤ b.num * a.den * c.den := Nat.mul_le_mul_right c.den h1
  have step2 : b.num * a.den * c.den ≤ c.num * a.den * b.den := by
    calc b.num * a.den * c.den = b.num * c.den * a.den := by ring
      _ ≤ c.num * b.den * a.den := Nat.mul_le_mul_right a.den h2
      _ = c.num * a.den * b.den := by ring
  exact Nat.le_of_mul_le_mul_right (step1.trans step2) hb

theorem insEntry_perm (e : AcceptEntry) (l : List AcceptEntry) :
    (insEntry e l).Perm (e :: l) := by
  induction l with
  | nil => simp [insEntry]
  | cons x xs ih =>
    unfold insEntry
    by_cases h : qLe e.q x.q = true
    · rw [if_pos h]
      exact (ih.cons x).trans (List.Perm.swap e x xs)
    · rw [if_neg h]

theorem foldl_insEntry_perm (l : List AcceptEntry) :
    ∀ acc, (l.foldl (fun a e => insEntry e a) acc).Perm (acc ++ l) := by
  induction l with
  | nil => intro acc; simp
  | cons e rest ih =>
    intro acc
    simp only [List.foldl_cons]
    refine (ih (insEntry e acc)).trans ?_
    refine (List.Perm.append_right rest (insEntry_perm e acc)).trans ?_
    exact List.perm_middle.symm

theorem sortByQDesc_perm (l : List AcceptEntry) : (sortByQDesc l).Perm l := by
  simpa [sortByQDesc] using foldl_insEntry_perm l []

theorem insEntry_pairwise (e : AcceptEntry) (l : List AcceptEntry)
    (hpos : ∀ y ∈ e :: l, 0 < y.q.den)
    (h : l.Pairwise (fun a b => qLe b.q a.q = true)) :
    (insEntry e l).Pairwise (fun a b => qLe b.q a.q = true) := by
  induction l with
  | nil => simp [insEntry, List.pairwise_cons]
  | cons x xs ih =>
    rw [List.pairwise_cons] at h
    obtain ⟨hx, hxs⟩ := h
    unfold insEntry
    by_cases hq : qLe e.q x.q = true
    · rw [if_pos hq]
      rw [List.pairwise_cons]
      refine ⟨?_, ?_⟩
      · intro b hb
        rcases List.mem_cons.mp ((insEntry_perm e xs).mem_iff.mp hb) with rfl | hb'
        · exact hq
        · exact hx b hb'
      · refine ih ?_ hxs
        intro y hy
        rcases List.mem_cons.mp hy with rfl | hy'
        · exact hpos y (List.mem_cons_self y _)
        · exact hpos y (List.mem_cons_of_mem e (List.mem_cons_of_mem x hy'))
    · rw [if_neg hq]
      have hxe : qLe x.q e.q = true :=
        qLe_of_not_qLe (by revert hq; cases qLe e.q x.q <;> simp)
      have hxpos : 0 < x.q.den :=
        hpos x (List.mem_cons_of_mem e (List.mem_cons_self x xs))
      rw [List.pairwise_cons]
      refine ⟨?_, List.pairwise_cons.mpr ⟨hx, hxs⟩⟩
      intro b hb
      rcases List.mem_cons.mp hb with rfl | hb'
      · exact hxe
      · exact qLe_trans hxpos (hx b hb') hxe

theorem foldl_insEntry_pairwise (l : List AcceptEntry) :
    ∀ acc, (∀ y ∈ l, 0 < y.q.den) → (∀ y ∈ acc, 0 < y.q.den) →
      acc.Pairwise (fun a b => qLe b.q a.q = true) →
      (l.foldl (fun a e => insEntry e a) acc).Pairwise
        (fun a b => qLe b.q a.q = true) := by
  induction l with
  | nil => intro acc _ _ hp; simpa using hp
  | cons e rest ih =>
    intro acc hl hacc hp
    simp only [List.foldl_cons]
    refine ih (insEntry e acc) (fun y hy => hl y (List.mem_cons_of_mem e hy))
      ?_ ?_
    · intro y hy
      rcases List.mem_cons.mp ((insEntry_perm e acc).mem_iff.mp hy) with rfl | hy'
      · exact hl y (List.mem_cons_self y rest)
      · exact hacc y hy'
    · refine insEntry_pairwise e acc ?_ hp
      intro y hy
      rcases List.mem_cons.mp hy with rfl | hy'
      · exact hl y (List.mem_cons_self y rest)
      · exact hacc y hy'

theorem sortByQDesc_pairwise (l : List AcceptEntry)
    (hl : ∀ y ∈ l, 0 < y.q.den) :
    (sortByQDesc l).Pairwise (fun a b => qLe b.q a.q = true) := by
  exact foldl_insEntry_pairwise l [] hl (by simp) (by simp)

theorem parseDecimal?_den_pos {s : String} {q : QVal}
    (h : parseDecimal? s = some q) : 0 < q.den := by
  unfold parseDecimal? at h
  split at h
  · split at h
    · exact absurd h (by simp)
    · cases h; exact Nat.one_pos
  · split at h
    · exact absurd h (by simp)
    · cases h
      exact Nat.pos_pow_of_pos _ (by norm_num)
  · exact absurd h (by simp)

theorem acceptParamStep_den_pos {q q' : QVal} {piece : String}
    (hq : 0 < q.den) (h : acceptParamStep q piece = some q') : 0 < q'.den := by
  simp only [acceptParamStep] at h
  split at h
  · cases h; exact hq
  · split at h
    · exact absurd h (by simp)
    · split at h
      · split at h
        · exact absurd h (by simp)
        · exact parseDecimal?_den_pos h
      · cases h; exact hq

theorem foldlM_acceptParamStep_den_pos (ps : List String) :
    ∀ (q0 q : QVal), 0 < q0.den → ps.foldlM acceptParamStep q0 = some q →
      0 < q.den := by
  induction ps with
  | nil => intro q0 q h0 h; cases h; exact h0
  | cons p ps ih =>
    intro q0 q h0 h
    rw [List.foldlM_cons] at h
    cases hstep : acceptParamStep q0 p with
    | none => rw [hstep] at h; exact absurd h (by simp)
    | some q1 =>
      rw [hstep] at h
      exact ih q1 q (acceptParamStep_den_pos h0 hstep) h

theorem parseAcceptEntry?_den_pos {s : String} {e : AcceptEntry}
    (h : parseAcceptEntry? s = some e) : 0 < e.q.den := by
  unfold parseAcceptEntry? at h
  rw [Option.map_eq_some'] at h
  obtain ⟨q, hq, rfl⟩ := h
  exact foldlM_acceptParamStep_den_pos _ _ q Nat.one_pos hq

theorem mem_of_mapM_option {β : Type} {f : String → Option β} :
    ∀ (l : List String) (res : List β), l.mapM f = some res →
      ∀ e ∈ res, ∃ s ∈ l, f s = some e := by
  intro l
  induction l with
  | nil =>
    intro res h e he
    cases h
    simp at he
  | cons s ls ih =>
    intro res h e he
    rw [List.mapM_cons] at h
    cases hf : f s with
    | none => rw [hf] at h; simp at h
    | some b =>
      rw [hf] at h
      cases hls : ls.mapM f with
      | none => rw [hls] at h; simp at h
      | some bs =>
        rw [hls] at h
        simp at h
        subst h
        rcases List.mem_cons.mp he with rfl | he'
        · exact ⟨s, List.mem_cons_self s ls, hf⟩
        · obtain ⟨s', hs', hfs'⟩ := ih bs hls e he'
          exact ⟨s', List.mem_cons_of_mem s hs', hfs'⟩

theorem parseAccept?_den_pos {h : String} {l : List AcceptEntry}
    (hp : parseAccept? h = some l) : ∀ e ∈ l, 0 < e.q.den := by
  unfold parseAccept? at hp
  intro e he
  obtain ⟨s, _, hs⟩ := mem_of_mapM_option _ _ hp e he
  exact parseAcceptEntry?_den_pos hs

/-- C3.  `accepts` parses the accept header into `{mimeType, q}` entries
(quality defaulting to 1), sorts them by descending quality with ties
keeping header order (the sort output is a quality-descending permutation
of the parse output, and stable insertion keeps equal-quality entries in
header order), walks the sorted entries returning the first candidate on
`*/*` and otherwise the first candidate in argument order whose expanded
type matches, and returns false with no candidates or no match.  The three
concrete cases of the spec are evaluated, plus a tie case and a
subtype-wildcard case. -/
theorem c3_accepts_content_negotiation :
    acceptsM "text/html;q=0.8, application/json;q=0.9" ["json", "html"] =
        some (some "json")
    ∧ acceptsM "*/*" ["json", "html"] = some (some "json")
    ∧ acceptsM "text/plain" ["json", "html"] = some none
    ∧ acceptsM "text/html, application/json" ["json", "html"] =
        some (some "html")
    ∧ acceptsM "text/*" ["json", "html"] = some (some "html")
    ∧ parseAcceptEntry? "text/html" = some ⟨"text/html", ⟨1, 1⟩⟩
    ∧ parseAcceptEntry? "text/html;q=0.8" = some ⟨"text/html", ⟨8, 10⟩⟩
    ∧ (∀ entries : List AcceptEntry, acceptsCore entries [] = none)
    ∧ (∀ (h : String) (l : List AcceptEntry), parseAccept? h = some l →
        ∀ e ∈ l, 0 < e.q.den)
    ∧ (∀ l : List AcceptEntry, (sortByQDesc l).Perm l)
    ∧ (∀ l : List AcceptEntry, (∀ e ∈ l, 0 < e.q.den) →
        (sortByQDesc l).Pairwise (fun a b => qLe b.q a.q = true))
    ∧ (∀ (entries : List AcceptEntry) (e : AcceptEntry)
        (es : List AcceptEntry) (t : String) (ts : List String),
        sortByQDesc entries = e :: es → e.mimeType = "*/*" →
        acceptsCore entries (t :: ts) = some t) := by
  refine ⟨by decide, by decide, by decide, by decide, by decide, by decide,
    by decide, fun entries => rfl, ?_, sortByQDesc_perm, sortByQDesc_pairwise,
    ?_⟩
  · intro h l hp
    exact parseAccept?_den_pos hp
  · intro entries e es t ts hsort hmt
    unfold acceptsCore walkAccept
    rw [hsort]
    simp [hmt]

/-- Closed instantiation of `c3_accepts_content_negotiation`: the sorted
entry list of a parsed two-entry header is quality-descending, and a
leading `*/*` entry selects the first candidate. -/
theorem c3_accepts_content_negotiation_witness :
    ((sortByQDesc [⟨"a/b", ⟨1, 2⟩⟩, ⟨"c/d", ⟨3, 4⟩⟩]).Pairwise
      (fun a b => qLe b.q a.q = true))
    ∧ acceptsCore [⟨"*/*", ⟨1, 1⟩⟩] ["png", "css"] = some "png" :=
  ⟨c3_accepts_content_negotiation.2.2.2.2.2.2.2.2.2.2.1
      [⟨"a/b", ⟨1, 2⟩⟩, ⟨"c/d", ⟨3, 4⟩⟩] (by decide),
   c3_accepts_content_negotiation.2.2.2.2.2.2.2.2.2.2.2
      [⟨"*/*", ⟨1, 1⟩⟩] ⟨"*/*", ⟨1, 1⟩⟩ [] "png" ["css"] (by decide) rfl⟩

/-! ## Matcher lemmas for claims C4 and C7 -/

/-- The regex items of a run of literal characters. -/
def litItems (cs : List Char) : List RItem := cs.map RItem.lit

theorem riMatch_lit_cons (c : Char) (rest : List RItem) (anch : Bool)
    (d : Char) (ds : List Char) :
    riMatch (.lit c :: rest) anch (d :: ds) =
      if d = c then riMatch rest anch ds else none := rfl

theorem riMatch_lit_nil (c : Char) (rest : List RItem) (anch : Bool) :
    riMatch (.lit c :: rest) anch [] = none := rfl

theorem riMatch_dot_cons (rest : List RItem) (anch : Bool) (d : Char)
    (ds : List Char) :
    riMatch (.dot :: rest) anch (d :: ds) =
      if lineTerm d then none else riMatch rest anch ds := rfl

theorem riMatch_group_cons (name : String) (rest : List RItem) (anch : Bool)
    (ds : List Char) :
    riMatch (.group name :: rest) anch ds =
      firstSome
        (fun k => if k = 0 then none
          else (riMatch rest anch (ds.drop k)).map
            (fun g => (name, String.mk (ds.take k)) :: g))
        (ds.takeWhile (fun c => c != '/')).length := rfl

theorem riMatch_dotStar_cons (rest : List RItem) (anch : Bool)
    (ds : List Char) :
    riMatch (.dotStar :: rest) anch ds =
      firstSome (fun k => riMatch rest anch (ds.drop k))
        (ds.takeWhile (fun c => !lineTerm c)).length := rfl

theorem riMatch_nil_true_of_ne (ds : List Char) (h : ds ≠ []) :
    riMatch [] true ds = none := by
  cases ds with
  | nil => exact absurd rfl h
  | cons d ds' => rfl

theorem firstSome_eq_none {β : Type} (f : Nat → Option β) :
    ∀ n, (∀ k, k ≤ n → f k = none) → firstSome f n = none := by
  intro n
  induction n with
  | zero =>
    intro h
    simpa [firstSome] using h 0 (Nat.le_refl 0)
  | succ n ih =>
    intro h
    unfold firstSome
    rw [h (n + 1) (Nat.le_refl _)]
    exact ih (fun k hk => h k (Nat.le_succ_of_le hk))

theorem firstSome_top {β : Type} (f : Nat → Option β) (n : Nat) (b : β)
    (h : f n = some b) : firstSome f n = some b := by
  cases n with
  | zero => simpa [firstSome] using h
  | succ n => unfold firstSome; rw [h]

theorem takeWhile_eq_self_of_all {p : Char → Bool} (ds : List Char)
    (h : ds.all p = true) : ds.takeWhile p = ds :=
  List.takeWhile_eq_self_iff.mpr (by simpa [List.all_eq_true] using h)

theorem takeWhile_length_lt {p : Char → Bool} :
    ∀ ds : List Char, ds.all p = false → (ds.takeWhile p).length < ds.length := by
  intro ds
  induction ds with
  | nil => intro h; simp at h
  | cons d ds ih =>
    intro h
    rw [List.all_cons] at h
    by_cases hd : p d
    · rw [List.takeWhile_cons_of_pos hd]
      simp only [List.length_cons]
      refine Nat.succ_lt_succ (ih ?_)
      cases hds : ds.all p
      · rfl
      · rw [hd, hds] at h
        simp at h
    · rw [List.takeWhile_cons_of_neg hd]
      simp

/-- A run of literal items consumes exactly its own characters: the match
continues with the remaining items iff the literal run is a prefix of the
input. -/
theorem riMatch_lits (cs : List Char) (rest : List RItem) (anch : Bool) :
    ∀ ds : List Char, riMatch (litItems cs ++ rest) anch ds =
      if cs <+: ds then riMatch rest anch (ds.drop cs.length) else none := by
  induction cs with
  | nil =>
    intro ds
    simp [litItems]
  | cons c cs ih =>
    intro ds
    cases ds with
    | nil =>
      rw [if_neg]
      · rfl
      · intro hpre
        exact List.cons_ne_nil c cs (List.prefix_nil.mp hpre)
    | cons d ds' =>
      have hstep : riMatch (litItems (c :: cs) ++ rest) anch (d :: ds') =
          if d = c then riMatch (litItems cs ++ rest) anch ds' else none := rfl
      rw [hstep]
      by_cases hdc : d = c
      · subst hdc
        have hiff : (d :: cs) <+: (d :: ds') ↔ cs <+: ds' := by
          rw [List.cons_prefix_cons]
          simp
        rw [if_pos rfl, ih ds']
        by_cases hp : cs <+: ds'
        · rw [if_pos hp, if_pos (hiff.mpr hp)]
          rfl
        · rw [if_neg hp, if_neg (fun hc => hp (hiff.mp hc))]
      · rw [if_neg hdc, if_neg]
        intro hc
        exact hdc (List.cons_prefix_cons.mp hc).1.symm

/-- A literal-only pattern. -/
theorem riMatch_lits_only (cs : List Char) (anch : Bool) (ds : List Char) :
    riMatch (litItems cs) anch ds =
      if cs <+: ds then riMatch [] anch (ds.drop cs.length) else none := by
  have := riMatch_lits cs [] anch ds
  simpa using this

/-- `(?<name>[^/]+)` at the end of an anchored pattern matches exactly the
non-empty all-non-slash inputs, capturing the whole input. -/
theorem riMatch_group_end (name : String) (ds : List Char) :
    riMatch [.group name] true ds =
      if ds ≠ [] ∧ ds.all (fun c => c != '/') = true
      then some [(name, String.mk ds)] else none := by
  rw [riMatch_group_cons]
  cases ds with
  | nil =>
    simp [firstSome]
  | cons d ds' =>
    by_cases hall : (d :: ds').all (fun c => c != '/') = true
    · rw [takeWhile_eq_self_of_all _ hall]
      have hf : (fun k => if k = 0 then none
          else (riMatch [] true ((d :: ds').drop k)).map
            (fun g => (name, String.mk ((d :: ds').take k)) :: g))
          (d :: ds').length = some [(name, String.mk (d :: ds'))] := by
        simp [riMatch, List.drop_length, List.take_length]
      rw [firstSome_top _ _ _ hf, if_pos ⟨List.cons_ne_nil d ds', hall⟩]
    · have hfalse : (d :: ds').all (fun c => c != '/') = false := by
        cases hv : (d :: ds').all (fun c => c != '/')
        · rfl
        · exact absurd hv hall
      have hlt := takeWhile_length_lt (d :: ds') hfalse
      rw [firstSome_eq_none, if_neg (fun hc => hall hc.2)]
      intro k hk
      by_cases hk0 : k = 0
      · simp [hk0]
      · have hklt : k < (d :: ds').length := Nat.lt_of_le_of_lt hk hlt
        have hdrop : (d :: ds').drop k ≠ [] := by
          intro hc
          have := List.drop_eq_nil_iff.mp hc
          omega
        rw [if_neg hk0, riMatch_nil_true_of_ne _ hdrop]
        rfl

/-- The unanchored `.*` tail accepts any remainder. -/
theorem riMatch_dotStar_end (ds : List Char) :
    riMatch [.dotStar] false ds = some [] := by
  rw [riMatch_dotStar_cons]
  exact firstSome_top _ _ [] rfl

/-- `/?$`: accepts exactly the empty remainder and a single `/`. -/
theorem riMatch_optSlash_end (ds : List Char) :
    riMatch [.optSlash] true ds =
      if ds = [] ∨ ds = ['/'] then some [] else none := by
  cases ds with
  | nil => rfl
  | cons d ds' =>
    have hstep : riMatch [.optSlash] true (d :: ds') =
        if d = '/' then
          match riMatch [] true ds' with
          | some g => some g
          | none => riMatch [] true (d :: ds')
        else riMatch [] true (d :: ds') := rfl
    rw [hstep]
    by_cases hd : d = '/'
    · subst hd
      cases ds' with
      | nil => rfl
      | cons e es =>
        rw [if_pos rfl, riMatch_nil_true_of_ne (e :: es) (List.cons_ne_nil e es),
          riMatch_nil_true_of_ne _ (List.cons_ne_nil _ _), if_neg]
        intro hc
        rcases hc with hc | hc <;> simp at hc
    · rw [if_neg hd, riMatch_nil_true_of_ne _ (List.cons_ne_nil d ds'), if_neg]
      intro hc
      rcases hc with hc | hc
      · simp at hc
      · rw [List.cons_eq_cons] at hc
        exact hd hc.1

/-! ## Theorems for claim C4 (pattern compilation and matching) -/

/-- C4 counterexample.  The compiled pattern splices literal segments into
the regex source unescaped, so `.` in a route path is the regex
any-character metacharacter: the route `/a.b` matches the request path
`/axb`, which a byte-for-byte literal match would reject. -/
theorem c4_literal_regex_dot_counterexample :
    compiledTest "/" "a.b" "/axb" = true ∧ ("/axb" : String) ≠ "/a.b" :=
  ⟨by decide, by decide⟩

/-- C4 (amended).  Compiled route patterns match as the generated regex
does: literal segments are regex text — byte-for-byte for segments without
regex metacharacters, while `.` matches any single non-line-terminator
character; a `:name` segment captures one-or-more non-`/` characters; the
whole path is anchored at both ends except that a trailing `*` segment
leaves the tail unanchored; and a pattern ending in `/` also matches the
same path without the trailing slash.  Concretely: `/users` matches exactly
`"/users"`; `/users/:id` matches exactly the paths `"/users/" ++ x` with
`x` non-empty and slash-free, capturing `id = x` (so `/users/42` yields
`id = "42"` and `/users` is rejected); `/files/*` matches exactly the
paths extending `"/files/"`, including `/files/a/b/c`; `/api/` matches
exactly `/api` and `/api/`. -/
theorem c4_pattern_matching_amended :
    (∀ s : String, compiledTest "/" "users" s = true ↔ s = "/users")
    ∧ (∀ x : String, x ≠ "" → x.data.all (fun c => c != '/') = true →
        compiledExec "/" "users/:id" ("/users/" ++ x) = some [("id", x)])
    ∧ (∀ s : String, compiledTest "/" "users/:id" s = true ↔
        ∃ x : String, s = "/users/" ++ x ∧ x ≠ ""
          ∧ x.data.all (fun c => c != '/') = true)
    ∧ compiledTest "/" "users/:id" "/users" = false
    ∧ (∀ s : String, compiledTest "/" "files/*" s = true ↔
        ∃ t : String, s = "/files/" ++ t)
    ∧ compiledTest "/" "files/*" "/files/a/b/c" = true
    ∧ (∀ s : String, compiledTest "/" "api/" s = true ↔
        s = "/api" ∨ s = "/api/")
    ∧ (∀ c : Char, lineTerm c = false →
        compiledTest "/" "a.b" (String.mk ['/', 'a', c, 'b']) = true) := by
  have hmk : ∀ s : String, String.mk s.data = s := fun s => rfl
  have h_users : routerCompile "/" "users" =
      .ok ⟨litItems "/users".data, true, []⟩ := by decide
  have h_usersid : routerCompile "/" "users/:id" =
      .ok ⟨litItems "/users/".data ++ [.group "id"], true, ["id"]⟩ := by decide
  have h_files : routerCompile "/" "files/*" =
      .ok ⟨litItems "/files/".data ++ [.dotStar], false, []⟩ := by decide
  have h_api : routerCompile "/" "api/" =
      .ok ⟨litItems "/api".data ++ [.optSlash], true, []⟩ := by decide
  have hB : ∀ x : String, x ≠ "" → x.data.all (fun c => c != '/') = true →
      compiledExec "/" "users/:id" ("/users/" ++ x) = some [("id", x)] := by
    intro x hx hall
    have hxd : x.data ≠ [] := by
      intro hc
      exact hx (by rw [← hmk x, hc])
    unfold compiledExec
    rw [h_usersid]
    dsimp only
    unfold patExec
    dsimp only
    rw [String.data_append, riMatch_lits, if_pos (List.prefix_append _ _),
      List.drop_left, riMatch_group_end, if_pos ⟨hxd, hall⟩, hmk x]
  refine ⟨?_, hB, ?_, by decide, ?_, by decide, ?_, ?_⟩
  · intro s
    unfold compiledTest
    rw [h_users]
    dsimp only
    unfold patTest patExec
    dsimp only
    rw [riMatch_lits_only]
    by_cases hp : "/users".data <+: s.data
    · rw [if_pos hp]
      obtain ⟨t, ht⟩ := hp
      have hdt : s.data.drop ("/users".data.length) = t := by
        rw [← ht, List.drop_left]
      rw [hdt]
      constructor
      · intro hsome
        by_cases hnil : t = []
        · subst hnil
          have hsd : s.data = "/users".data := by simpa using ht.symm
          rw [← hmk s, hsd]
        · rw [riMatch_nil_true_of_ne _ hnil] at hsome
          simp at hsome
      · rintro rfl
        have : t = [] := by simpa using ht
        rw [this]
        rfl
    · rw [if_neg hp]
      simp only [Option.isSome_none, Bool.false_eq_true, false_iff]
      rintro rfl
      exact hp (List.prefix_refl _)
  · intro s
    constructor
    · intro ht
      unfold compiledTest at ht
      rw [h_usersid] at ht
      dsimp only at ht
      unfold patTest patExec at ht
      dsimp only at ht
      rw [riMatch_lits] at ht
      by_cases hp : "/users/".data <+: s.data
      · rw [if_pos hp, riMatch_group_end] at ht
        obtain ⟨t, htp⟩ := hp
        have hdt : s.data.drop ("/users/".data.length) = t := by
          rw [← htp, List.drop_left]
        rw [hdt] at ht
        by_cases hcond : t ≠ [] ∧ t.all (fun c => c != '/') = true
        · refine ⟨String.mk t, ?_, ?_, hcond.2⟩
          · rw [← hmk s, ← htp]
            rfl
          · intro hc
            exact hcond.1 (congrArg String.data hc)
        · rw [if_neg hcond] at ht
          simp at ht
      · rw [if_neg hp] at ht
        simp at ht
    · rintro ⟨x, rfl, hx, hall⟩
      have hres := hB x hx hall
      unfold compiledExec at hres
      rw [h_usersid] at hres
      dsimp only at hres
      unfold compiledTest
      rw [h_usersid]
      dsimp only
      unfold patTest
      rw [hres]
      rfl
  · intro s
    unfold compiledTest
    rw [h_files]
    dsimp only
    unfold patTest patExec
    dsimp only
    rw [riMatch_lits]
    by_cases hp : "/files/".data <+: s.data
    · rw [if_pos hp, riMatch_dotStar_end]
      simp only [Option.isSome_some, true_iff]
      obtain ⟨t, htp⟩ := hp
      refine ⟨String.mk t, ?_⟩
      rw [← hmk s, ← htp]
      rfl
    · rw [if_neg hp]
      simp only [Option.isSome_none, Bool.false_eq_true, false_iff]
      rintro ⟨t, rfl⟩
      exact hp (by rw [String.data_append]; exact List.prefix_append _ _)
  · intro s
    unfold compiledTest
    rw [h_api]
    dsimp only
    unfold patTest patExec
    dsimp only
    rw [riMatch_lits]
    by_cases hp : "/api".data <+: s.data
    · rw [if_pos hp, riMatch_optSlash_end]
      obtain ⟨t, htp⟩ := hp
      have hdt : s.data.drop ("/api".data.length) = t := by
        rw [← htp, List.drop_left]
      rw [hdt]
      constructor
      · intro hsome
        by_cases hc : t = [] ∨ t = ['/']
        · rcases hc with rfl | rfl
          · left
            rw [← hmk s, ← htp]
            rfl
          · right
            rw [← hmk s, ← htp]
            rfl
        · rw [if_neg hc] at hsome
          simp at hsome
      · intro hor
        rcases hor with rfl | rfl
        · have : t = [] := by simpa using htp
          rw [if_pos (Or.inl this)]
          rfl
        · have : t = ['/'] := by simpa using htp
          rw [if_pos (Or.inr this)]
          rfl
    · rw [if_neg hp]
      simp only [Option.isSome_none, Bool.false_eq_true, false_iff]
      intro hor
      rcases hor with rfl | rfl
      · exact hp (List.prefix_refl _)
      · exact hp ⟨['/'], rfl⟩
  · intro c hc
    have h_adotb : routerCompile "/" "a.b" =
        .ok ⟨[.lit '/', .lit 'a', .dot, .lit 'b'], true, []⟩ := by decide
    unfold compiledTest
    rw [h_adotb]
    dsimp only
    unfold patTest patExec
    dsimp only
    rw [riMatch_lit_cons, if_pos rfl, riMatch_lit_cons, if_pos rfl,
      riMatch_dot_cons, hc]
    rfl

/-- Closed instantiation of `c4_pattern_matching_amended`: the named
parameter of `/users/:id` captures `id = "42"` on `/users/42`. -/
theorem c4_pattern_matching_amended_witness :
    compiledExec "/" "users/:id" "/users/42" = some [("id", "42")] :=
  c4_pattern_matching_amended.2.1 "42" (by decide) (by decide)

/-! ## Theorems for claim C7 (registration-time pattern errors) -/

theorem buildPattern_names {parts names : List String} {p : PathPattern}
    (h : buildPattern parts names = .ok p) : p.names = names := by
  unfold buildPattern at h
  dsimp only at h
  split at h
  · exact absurd h (by simp)
  · cases h
    rfl

/-- C7.  A route path with an empty parameter name (a bare `:` segment)
makes the `RegExp` constructor throw when the route is registered: `any`
reports the error synchronously and the listener is never appended.  A
route that registers successfully can never fail at match time: every
capture-group name of a successfully compiled pattern is valid and the
names are distinct (the matcher itself, `patTest`/`patExec`, is a total
function). -/
theorem c7_empty_param_name_registration_error :
    (∀ (pre path : String) (handlers : List Nat) (id : Nat),
      ":" ∈ routeParts (prefixPathOf pre) path →
      anyModel handlers id pre path = some (.error ()))
    ∧ (∀ (pre path : String) (p : PathPattern) (handlers : List Nat) (id : Nat),
        routerCompile pre path = .ok p →
        anyModel handlers id pre path = some (.ok (handlers ++ [id])))
    ∧ (∀ (pre path : String) (p : PathPattern),
        routerCompile pre path = .ok p →
        (∀ n ∈ p.names, groupNameClass n = .valid) ∧ p.names.Nodup) := by
  refine ⟨?_, ?_, ?_⟩
  · intro pre path handlers id hmem
    have hmemname : "" ∈ routeNames (routeParts (prefixPathOf pre) path) := by
      unfold routeNames
      exact List.mem_filterMap.mpr ⟨":", hmem, by decide⟩
    have hcond : (routeNames (routeParts (prefixPathOf pre) path)).any
        (fun n => groupNameClass n == GroupNameClass.invalid) = true :=
      List.any_eq_true.mpr ⟨"", hmemname, by decide⟩
    have hjs : getPathRegExp (prefixPathOf pre) path = .jsError := by
      unfold getPathRegExp
      rw [if_pos hcond]
    unfold anyModel routerCompile
    rw [hjs]
  · intro pre path p handlers id h
    unfold anyModel
    unfold routerCompile at h
    rw [routerCompile, h]
  · intro pre path p h
    unfold routerCompile getPathRegExp at h
    dsimp only at h
    split at h
    · exact absurd h (by simp)
    · split at h
      · exact absurd h (by simp)
      · split at h
        · exact absurd h (by simp)
        · rename_i hinv hunk hdup
          rw [buildPattern_names h]
          refine ⟨?_, not_not.mp hdup⟩
          intro n hn
          cases hcl : groupNameClass n with
          | valid => rfl
          | invalid =>
            exact absurd (List.any_eq_true.mpr ⟨n, hn, by rw [hcl]; rfl⟩) hinv
          | unknown =>
            exact absurd (List.any_eq_true.mpr ⟨n, hn, by rw [hcl]; rfl⟩) hunk

/-- Closed instantiation of `c7_empty_param_name_registration_error`:
registering the route `/x/:` on the root router throws before the handler
list is touched, and registering `/users/:id` appends the listener. -/
theorem c7_empty_param_name_registration_error_witness :
    anyModel [] 0 "/" "x/:" = some (.error ())
    ∧ anyModel [7] 8 "/" "users/:id" = some (.ok [7, 8]) :=
  ⟨c7_empty_param_name_registration_error.1 "/" "x/:" [] 0 (by decide),
   c7_empty_param_name_registration_error.2.1 "/" "users/:id"
      ⟨litItems "/users/".data ++ [.group "id"], true, ["id"]⟩ [7] 8
      (by decide)⟩

end Servess
